import Mathlib

/-!
Verification development for the etoro-scraper extraction layer.

The Python sources (three extractors plus the orchestrator's record
normalizer) are shallowly embedded below.  Python strings are modelled as
`List Char` (`PyStr`); the BeautifulSoup DOM is the inductive `Node`;
Python dicts holding record fields are association lists (`Dict`).

Modelling conventions, noted once here:
* character classes (`str.isdigit`, regex `\d`, `\s`, `\b`, `str.strip`)
  are modelled over their ASCII meaning, which is what every claim and
  example exercises;
* Python `float` results of `float(<decimal literal>)` are modelled as
  exact decimals in canonical form (`Dec`), so `24.6` is `mkDec 246 1`;
* `datetime.fromisoformat` is modelled on its documented ISO-8601 core
  profile `YYYY-MM-DD[<sep>HH[:MM[:SS[.ffffff]]][+HH:MM[:SS]]]`, and
  `datetime.strptime` on the exact regexes CPython generates for the three
  format strings appearing in the source;
* a BeautifulSoup `Tag` is always truthy (`Tag.__bool__` returns `True`),
  so `find(...) or find(...)` chains select the first non-`None` result,
  modelled with `Option`.
-/

/-- Python strings. -/
abbrev PyStr := List Char

/-- Literal helper: a Lean string literal as a `PyStr`. -/
def strL (s : String) : PyStr := s.toList

/-- ASCII whitespace, as stripped by `str.strip` and matched by `\s`. -/
def wsB (c : Char) : Bool :=
  c == ' ' || c == '\t' || c == '\n' || c == '\r' || c == '\x0b' || c == '\x0c'

/-- Word characters for the regex `\b` boundary (ASCII profile). -/
def isWordB (c : Char) : Bool := c.isAlpha || c.isDigit || c == '_'

/-- Numeric value of a digit run, as computed by Python `int`. -/
def digitsToNat (l : PyStr) : Nat :=
  l.foldl (fun a c => 10 * a + (c.toNat - '0'.toNat)) 0

/-- Python `str.strip()` (ASCII whitespace profile). -/
def pyStripL (s : PyStr) : PyStr :=
  ((s.reverse.dropWhile wsB).reverse).dropWhile wsB

/-- `separator.join(pieces)`. -/
def joinSep (sep : PyStr) : List PyStr → PyStr
  | [] => []
  | [x] => x
  | x :: xs => x ++ sep ++ joinSep sep xs

/-- `pat` is a prefix of `s`. -/
def hasPre (pat s : PyStr) : Bool :=
  match pat, s with
  | [], _ => true
  | _ :: _, [] => false
  | p :: ps, c :: cs => p == c && hasPre ps cs

/-- `pat` occurs as a contiguous substring of `s` (Python `in`). -/
def hasSub (pat s : PyStr) : Bool :=
  match s with
  | [] => pat.isEmpty
  | _ :: cs => hasPre pat s || hasSub pat cs

/-- Python `str.split(sep)` for a single-character separator. -/
def splitChar (sep : Char) : PyStr → List PyStr
  | [] => [[]]
  | c :: rest =>
    if c == sep then [] :: splitChar sep rest
    else
      match splitChar sep rest with
      | [] => [[c]]
      | seg :: segs => (c :: seg) :: segs

/-- The prefix of `s` before its first occurrence of two consecutive
spaces: `s.split("  ")[0]`. -/
def beforeTwoSp : PyStr → PyStr
  | [] => []
  | c :: rest =>
    if c == ' ' && (match rest with | ' ' :: _ => true | _ => false) then []
    else c :: beforeTwoSp rest

/-- Worker for `runsBy`: `cur` is the current run, reversed. -/
def runsGo (p : Char → Bool) (cur : PyStr) : PyStr → List PyStr
  | [] => if cur.isEmpty then [] else [cur.reverse]
  | c :: rest =>
    if p c then runsGo p (c :: cur) rest
    else if cur.isEmpty then runsGo p [] rest
    else cur.reverse :: runsGo p [] rest

/-- Maximal runs of characters satisfying `p`, in order. -/
def runsBy (p : Char → Bool) (l : PyStr) : List PyStr := runsGo p [] l

/-- Consume the literal `pat` (already lower-case) case-insensitively from
the front of `l`, returning the remainder; models a literal in an
`re.IGNORECASE` pattern. -/
def matchCI : List Char → PyStr → Option PyStr
  | [], l => some l
  | _ :: _, [] => none
  | p :: ps, c :: cs => if c.toLower == p then matchCI ps cs else none

/-- Leftmost-match search: try `f` at every start position in turn,
including the empty suffix, as `re.search` does. -/
def searchPos {α : Type} (f : PyStr → Option α) : PyStr → Option α
  | [] => f []
  | c :: rest =>
    match f (c :: rest) with
    | some v => some v
    | none => searchPos f rest

/-- An exact decimal `num / 10 ^ scale`; canonical when built by `mkDec`.
Models the value of Python `float(<captured decimal literal>)`. -/
structure Dec where
  num : Int
  scale : Nat
deriving DecidableEq, Repr

/-- Canonicalizing constructor for `Dec`: divides out trailing powers of
ten so that structural equality is value equality. -/
def mkDec (n : Int) : Nat → Dec
  | 0 => ⟨n, 0⟩
  | s + 1 => if n % 10 == 0 then mkDec (n / 10) s else ⟨n, s + 1⟩

/-- The decimal value captured by a regex group `[-+]?\d+(\.\d+)?`:
`neg` is the sign, `ds` the integer digits, `fs` the fraction digits. -/
def decOfParts (neg : Bool) (ds fs : PyStr) : Dec :=
  let n : Int := (digitsToNat ds * 10 ^ fs.length + digitsToNat fs : Nat)
  mkDec (if neg then -n else n) fs.length

/-- The BeautifulSoup DOM: an element with tag name, attributes and
children, or a `NavigableString`.  The attribute list keeps raw attribute
values; node identity (`id()` in Python) is positional and is modelled by
paths where the source relies on it. -/
inductive Node where
  | elem (tag : String) (attrs : List (String × PyStr)) (children : List Node)
  | text (s : PyStr)

/-- All text descendants, in document order (`Tag.strings`). -/
def Node.strings : Node → List PyStr
  | .text s => [s]
  | .elem _ _ cs => go cs
where
  go : List Node → List PyStr
  | [] => []
  | n :: ns => n.strings ++ go ns

/-- The stripped, non-empty text pieces used by
`get_text(separator=..., strip=True)`. -/
def Node.textPieces (n : Node) : List PyStr :=
  (n.strings.map pyStripL).filter (fun p => !p.isEmpty)

/-- `get_text(separator=" ", strip=True)`. -/
def Node.getTextSep (n : Node) : PyStr := joinSep [' '] n.textPieces

/-- `get_text(strip=True)`. -/
def Node.getTextStrip (n : Node) : PyStr := joinSep [] n.textPieces

/-- `get_text()` with no arguments: raw concatenation of the strings. -/
def Node.getTextRaw (n : Node) : PyStr := joinSep [] n.strings

/-- Tag name of an element (text nodes have none). -/
def Node.tagName : Node → String
  | .elem t _ _ => t
  | .text _ => ""

/-- First value of attribute `k`, if the node is an element carrying it. -/
def Node.getAttr (n : Node) (k : String) : Option PyStr :=
  match n with
  | .elem _ as' _ => as'.lookup k
  | .text _ => none

/-- `has_attr` / attribute-presence CSS selector `[k]`. -/
def Node.hasAttrN (n : Node) (k : String) : Bool := (n.getAttr k).isSome

/-- The node is an element whose `class` attribute contains `sub` as a
substring.  For the space-free needles used by this code base this is
equivalent both to the CSS selector `[class*=sub]` and to the
`lambda c: c and sub in c` class filters passed to `find`. -/
def classHas (sub : String) (n : Node) : Bool :=
  match n.getAttr "class" with
  | some v => hasSub (strL sub) v
  | none => false

/-- Whitespace-separated tokens of the `class` attribute. -/
def classTokens (n : Node) : List PyStr :=
  match n.getAttr "class" with
  | some v => runsBy (fun c => !wsB c) v
  | none => []

/-- CSS class selector `.tok`: exact token membership. -/
def classTokEq (tok : String) (n : Node) : Bool :=
  (classTokens n).any (fun t => t == strL tok)

/-- The node is an element with the given tag name. -/
def tagIs (t : String) (n : Node) : Bool :=
  match n with
  | .elem tg _ _ => tg == t
  | .text _ => false

/-- `find`: first descendant (pre-order, the node itself excluded)
satisfying `p`; `p` is false on text nodes for every query this code
performs. -/
def Node.findDesc (p : Node → Bool) : Node → Option Node
  | .text _ => none
  | .elem _ _ cs => go cs
where
  go : List Node → Option Node
  | [] => none
  | c :: cs => (if p c then some c else c.findDesc p).orElse (fun _ => go cs)

/-- `select`: all descendants satisfying `p`, in document order. -/
def Node.selectDesc (p : Node → Bool) : Node → List Node
  | .text _ => []
  | .elem _ _ cs => go cs
where
  go : List Node → List Node
  | [] => []
  | c :: cs => (if p c then [c] else []) ++ c.selectDesc p ++ go cs

/-- `select` paired with each match's position path, which stands in for
Python object identity (`id`). -/
def Node.selectPaths (p : Node → Bool) : List Nat → Node → List (List Nat × Node)
  | _, .text _ => []
  | path, .elem _ _ cs => go path 0 cs
where
  go : List Nat → Nat → List Node → List (List Nat × Node)
  | _, _, [] => []
  | path, i, c :: cs =>
    (if p c then [(path ++ [i], c)] else []) ++
      Node.selectPaths p (path ++ [i]) c ++ go path (i + 1) cs

/-- `Tag.string`: the single text child, recursing through a single
element child, else `None`. -/
def nodeString : Node → Option PyStr
  | .text s => some s
  | .elem _ _ cs =>
    match cs with
    | [Node.text s] => some s
    | [e] => nodeString e
    | _ => none

/-- Truthiness of an `Option PyStr` holding a Python string-or-`None`. -/
def truthyOpt (o : Option PyStr) : Bool :=
  match o with
  | some s => !s.isEmpty
  | none => false

/-- Values stored in an investor-stats mapping: a Python float (exact
decimal model) or int. -/
inductive SVal where
  | f (d : Dec)
  | i (n : Nat)
deriving DecidableEq, Repr

/-- A Python value appearing in an emitted record field. -/
inductive Value where
  | null
  | s (v : PyStr)
  | i (n : Nat)
  | m (stats : List (String × SVal))
deriving DecidableEq, Repr

/-- A record: a Python dict modelled as an association list in insertion
order. -/
abbrev Dict := List (String × Value)

/-- `FIELD_NAMES` from `main.py`. -/
def FIELD_NAMES : List String :=
  ["stock_name", "ticker", "investor_name", "investor_stats", "post_content",
   "comment_text", "likes_count", "post_date", "category", "source_url"]

/-- A string-or-`None` as a record field value. -/
def optV (o : Option PyStr) : Value :=
  match o with
  | some s => .s s
  | none => .null

/-!  ## Investor extractor (`investor_parser.py`)  -/

/-- Match attempt for `risk\s*score\s*(\d+)` (IGNORECASE) at the current
position: literal, optional whitespace, literal, optional whitespace, then
a non-empty digit run captured greedily. -/
def riskScoreAt (l : PyStr) : Option Nat :=
  (matchCI (strL "risk") l).bind fun r1 =>
  let r2 := r1.dropWhile wsB
  (matchCI (strL "score") r2).bind fun r3 =>
  let r4 := r3.dropWhile wsB
  let ds := r4.takeWhile Char.isDigit
  if ds.isEmpty then none else some (digitsToNat ds)

/-- Match attempt for `risk[^0-9]*(\d+)\s*/\s*10` (IGNORECASE) at the
current position.  `[^0-9]*` necessarily ends at the first digit, and the
greedy `(\d+)` must take the whole digit run (a shorter capture would put
a digit where `\s*/` is required), so the match is deterministic. -/
def riskSlashAt (l : PyStr) : Option Nat :=
  (matchCI (strL "risk") l).bind fun r1 =>
  let r2 := r1.dropWhile (fun c => !c.isDigit)
  let ds := r2.takeWhile Char.isDigit
  if ds.isEmpty then none
  else
    let r3 := (r2.dropWhile Char.isDigit).dropWhile wsB
    (matchCI (strL "/") r3).bind fun r4 =>
    (matchCI (strL "10") (r4.dropWhile wsB)).map fun _ => digitsToNat ds

/-- `_parse_risk_score`: first the "risk score N" pattern, then the
"risk ... N/10" pattern; `None` on empty input or no match. -/
def parse_risk_score (block_text : PyStr) : Option Nat :=
  if block_text.isEmpty then none
  else
    match searchPos riskScoreAt block_text with
    | some v => some v
    | none => searchPos riskSlashAt block_text

/-- Tail of the 12-month-return pattern after the marker:
`[^0-9\-+]*([\-+]?\d+(?:\.\d+)?)\s*%`.  The skip run stops at the first
digit or sign; the digit runs are forced maximal (shorter captures place
a digit where `\s*%` must match), so the match is deterministic. -/
def pctTail (rest : PyStr) : Option Dec :=
  let r1 := rest.dropWhile (fun c => !(c.isDigit || c == '-' || c == '+'))
  let sgn := match r1 with
    | '-' :: _ => true
    | _ => false
  let r2 := match r1 with
    | '-' :: t => t
    | '+' :: t => t
    | t => t
  let ds := r2.takeWhile Char.isDigit
  if ds.isEmpty then none
  else
    let r3 := r2.dropWhile Char.isDigit
    let fr : PyStr × PyStr := match r3 with
      | '.' :: t => if (t.takeWhile Char.isDigit).isEmpty then ([], r3)
                    else (t.takeWhile Char.isDigit, t.dropWhile Char.isDigit)
      | _ => ([], r3)
    match fr.2.dropWhile wsB with
    | '%' :: _ => some (decOfParts sgn ds fr.1)
    | _ => none

/-- Match attempt for the full pattern
`(?:12m|12\s*months|1y)[^0-9\-+]*([\-+]?\d+(?:\.\d+)?)\s*%` at the current
position, trying the marker alternatives in the regex's order. -/
def ret12At (l : PyStr) : Option Dec :=
  match (matchCI (strL "12m") l).bind pctTail with
  | some v => some v
  | none =>
    match ((matchCI (strL "12") l).map (List.dropWhile wsB)
            |>.bind (matchCI (strL "months")) |>.bind pctTail) with
    | some v => some v
    | none => (matchCI (strL "1y") l).bind pctTail

/-- `_parse_return_12m`. -/
def parse_return_12m (block_text : PyStr) : Option Dec :=
  if block_text.isEmpty then none
  else searchPos ret12At block_text

/-- `_build_stats`: the non-null results, `return_12m` first, or `None`
when both heuristics miss (`stats or None`). -/
def build_stats (block_text : PyStr) : Option (List (String × SVal)) :=
  let risk := parse_risk_score block_text
  let ret := parse_return_12m block_text
  let stats :=
    (match ret with
     | some r => [("return_12m", SVal.f r)]
     | none => []) ++
    (match risk with
     | some k => [("risk_score", SVal.i k)]
     | none => [])
  if stats.isEmpty then none else some stats

/-- The crude name fallback:
`text.split("  ")[0].strip().split(" ")[0].strip()`. -/
def crudeName (t : PyStr) : PyStr :=
  pyStripL ((pyStripL (beforeTwoSp t)).takeWhile (fun c => !(c == ' ')))

/-- The investor-card selector
`[class*='user'], [class*='investor'], [data-etoro-user], [data-user-card]`. -/
def invCardPred (n : Node) : Bool :=
  classHas "user" n || classHas "investor" n ||
    n.hasAttrN "data-etoro-user" || n.hasAttrN "data-user-card"

/-- The name-element fallback chain inside a card: `strong`, `b`, `h2`,
`h3`, then a `span` whose class contains "name".  Found tags are always
truthy, so `or` picks the first non-`None` result. -/
def invNameElem (card : Node) : Option Node :=
  (card.findDesc (tagIs "strong")).orElse fun _ =>
  (card.findDesc (tagIs "b")).orElse fun _ =>
  (card.findDesc (tagIs "h2")).orElse fun _ =>
  (card.findDesc (tagIs "h3")).orElse fun _ =>
  card.findDesc (fun n => tagIs "span" n && classHas "name" n)

/-- The investor name derived from a card with visible text `t`. -/
def invNameOf (card : Node) (t : PyStr) : PyStr :=
  let name0 : Option PyStr := (invNameElem card).map Node.getTextStrip
  if truthyOpt name0 then name0.getD [] else crudeName t

/-- The record literal emitted per investor card. -/
def invRecord (name : PyStr) (stats : Option (List (String × SVal)))
    (category : Option PyStr) (source_url : PyStr) : Dict :=
  [("stock_name", .null), ("ticker", .null),
   ("investor_name", .s name),
   ("investor_stats", match stats with | some m => .m m | none => .null),
   ("post_content", .null), ("comment_text", .null), ("likes_count", .null),
   ("post_date", .null), ("category", optV category),
   ("source_url", .s source_url)]

/-- `parse_investor_page`: one record per selected card with non-empty
visible text, in document order. -/
def parse_investor_page (doc : Node) (source_url : PyStr)
    (category : Option PyStr) : List Dict :=
  (doc.selectDesc invCardPred).foldl
    (fun acc card =>
      let t := card.getTextSep
      if t.isEmpty then acc
      else acc ++ [invRecord (invNameOf card t) (build_stats t) category source_url])
    []

/-!  ## Stock extractor (`stock_parser.py`)  -/

/-- `_guess_ticker_from_title`: cut the title at the first `(`, `|`, `-`
or en-dash, then take the first maximal word-character run that consists
of one to five uppercase letters (the matches of `\b[A-Z]{1,5}\b`). -/
def guess_ticker_from_title (title : PyStr) : Option PyStr :=
  if title.isEmpty then none
  else
    let cleaned := title.takeWhile
      (fun c => !(c == '(' || c == '|' || c == '-' || c == '–'))
    ((runsBy isWordB cleaned).filter
      (fun r => decide (r.length ≤ 5) && r.all Char.isUpper)).head?

/-- The `meta name="etoro:category"` test used by `_extract_category`. -/
def metaCatPred (n : Node) : Bool :=
  tagIs "meta" n &&
    match n.getAttr "name" with
    | some v => v == strL "etoro:category"
    | none => false

/-- The breadcrumb selector `nav.breadcrumb, .breadcrumb, .breadcrumbs`. -/
def crumbPred (n : Node) : Bool :=
  (tagIs "nav" n && classTokEq "breadcrumb" n) ||
    classTokEq "breadcrumb" n || classTokEq "breadcrumbs" n

/-- The breadcrumb loop of `_extract_category`: whitespace-normalize the
crumb's raw text, split on `/`, drop blank segments, and return the
last-but-one segment of the first crumb with at least two segments. -/
def crumbCat : List Node → Option PyStr
  | [] => none
  | c :: rest =>
    let t := joinSep [' '] (runsBy (fun ch => !wsB ch) (joinSep [' '] c.strings))
    let parts := (splitChar '/' t).filter (fun p => !(pyStripL p).isEmpty)
    if parts.length ≥ 2 then some (pyStripL (parts.getD (parts.length - 2) []))
    else crumbCat rest

/-- `_extract_category`. -/
def extract_category (doc : Node) : Option PyStr :=
  match doc.findDesc metaCatPred with
  | some mc =>
    (match mc.getAttr "content" with
     | some v => if v.isEmpty then crumbCat (doc.selectDesc crumbPred)
                 else some (pyStripL v)
     | none => crumbCat (doc.selectDesc crumbPred))
  | none => crumbCat (doc.selectDesc crumbPred)

/-- The `meta property="og:title"` test. -/
def metaOgPred (n : Node) : Bool :=
  tagIs "meta" n &&
    match n.getAttr "property" with
    | some v => v == strL "og:title"
    | none => false

/-- The value the first (Open-Graph) block assigns to `stock_name`, or
`none` when it leaves the variable untouched. -/
def ogAssign (doc : Node) : Option PyStr :=
  match doc.findDesc metaOgPred with
  | some mt =>
    (match mt.getAttr "content" with
     | some v => if v.isEmpty then none else some (pyStripL v)
     | none => none)
  | none => none

/-- The value the `h1` block would assign (it only assigns non-empty
heading text). -/
def h1Assign (doc : Node) : Option PyStr :=
  match doc.findDesc (tagIs "h1") with
  | some h => if h.getTextStrip.isEmpty then none else some h.getTextStrip
  | none => none

/-- The value the `title` block would assign: the stripped `title.string`
whenever that string is truthy (the stripped value may still be empty). -/
def titleAssign (doc : Node) : Option PyStr :=
  match doc.findDesc (tagIs "title") with
  | some tt =>
    (match nodeString tt with
     | some s => if s.isEmpty then none else some (pyStripL s)
     | none => none)
  | none => none

/-- The final value of the `stock_name` variable: each later block runs
only while the variable is still falsy. -/
def stockNameOf (doc : Node) : Option PyStr :=
  let n1 := ogAssign doc
  let n2 := if truthyOpt n1 then n1 else
    match h1Assign doc with
    | some t => some t
    | none => n1
  if truthyOpt n2 then n2 else
    match titleAssign doc with
    | some t => some t
    | none => n2

/-- The ticker guess of `parse_stock_page`:
`_guess_ticker_from_title(stock_name or "")`. -/
def tickerOf (doc : Node) : Option PyStr :=
  guess_ticker_from_title ((stockNameOf doc).getD [])

/-- The resolved category of `parse_stock_page`: inference runs only when
no category was passed, and only a truthy inference result is kept. -/
def stockCatOf (doc : Node) (category : Option PyStr) : Option PyStr :=
  match category with
  | some c => some c
  | none =>
    match extract_category doc with
    | some i => if i.isEmpty then none else some i
    | none => none

/-- The record literal emitted by `parse_stock_page`. -/
def stockRecord (name ticker cat : Option PyStr) (source_url : PyStr) : Dict :=
  [("stock_name", optV name), ("ticker", optV ticker),
   ("investor_name", .null), ("investor_stats", .null),
   ("post_content", .null), ("comment_text", .null), ("likes_count", .null),
   ("post_date", .null), ("category", optV cat), ("source_url", .s source_url)]

/-- `parse_stock_page`. -/
def parse_stock_page (doc : Node) (source_url : PyStr)
    (category : Option PyStr) : List Dict :=
  let stock_name := stockNameOf doc
  let ticker := tickerOf doc
  if !truthyOpt stock_name && !truthyOpt ticker then []
  else [stockRecord stock_name ticker (stockCatOf doc category) source_url]

/-!  ## Post extractor (`post_parser.py`)  -/

/-- `_parse_likes`: strip, skip the non-digit lead-in, then accumulate the
first contiguous digit run; `int` of that run can never fail. -/
def parse_likes (t : PyStr) : Option Nat :=
  let s := pyStripL t
  if s.isEmpty then none
  else
    let num := (s.dropWhile (fun c => !c.isDigit)).takeWhile Char.isDigit
    if num.isEmpty then none else some (digitsToNat num)

/-- A parsed datetime: calendar fields plus an optional UTC offset in
seconds (`None` for naive values). -/
structure PyDateTime where
  year : Nat
  month : Nat
  day : Nat
  hour : Nat
  minute : Nat
  second : Nat
  tzOff : Option Int
deriving DecidableEq, Repr

/-- Gregorian leap year, as `datetime` validates days. -/
def isLeap (y : Nat) : Bool := (y % 4 == 0 && y % 100 != 0) || y % 400 == 0

/-- Days in a month, used by the `datetime` constructor's validation. -/
def daysInMonth (y m : Nat) : Nat :=
  if m == 2 then (if isLeap y then 29 else 28)
  else if m == 4 || m == 6 || m == 9 || m == 11 then 30
  else 31

/-- `datetime`-constructor validity of a calendar date. -/
def dateValid (y m d : Nat) : Bool :=
  decide (1 ≤ y) && decide (y ≤ 9999) && decide (1 ≤ m) && decide (m ≤ 12) &&
    decide (1 ≤ d) && decide (d ≤ daysInMonth y m)

/-- Consume exactly `n` digits, returning their value. -/
def takeD : Nat → PyStr → Option (Nat × PyStr)
  | 0, l => some (0, l)
  | _ + 1, [] => none
  | n + 1, c :: cs =>
    if c.isDigit then
      (takeD n cs).map (fun vr => (vr.1 + (c.toNat - '0'.toNat) * 10 ^ n, vr.2))
    else none

/-- A one-or-two digit `strptime` field such as `%m`, `%d`, `%H`, `%M`,
`%S`.  CPython's generated regex prefers two digits (the two-digit
alternatives come first); when two digits are present but invalid, the
one-digit fallback always runs into the following non-digit literal, so
committing to the two-digit reading is faithful. -/
def num21 (valid2 : Nat → Bool) (valid1 : Nat → Bool) :
    PyStr → Option (Nat × PyStr)
  | a :: b :: rest =>
    if a.isDigit && b.isDigit then
      let v := (a.toNat - '0'.toNat) * 10 + (b.toNat - '0'.toNat)
      if valid2 v then some (v, rest) else none
    else if a.isDigit then
      let v := a.toNat - '0'.toNat
      if valid1 v then some (v, b :: rest) else none
    else none
  | [a] =>
    if a.isDigit then
      let v := a.toNat - '0'.toNat
      if valid1 v then some (v, []) else none
    else none
  | [] => none

/-- Consume a literal character. -/
def litC (c : Char) (l : PyStr) : Option PyStr :=
  match l with
  | x :: rest => if x == c then some rest else none
  | [] => none

/-- Consume a literal character case-insensitively (`strptime` compiles
its regex with `IGNORECASE`, so the literal `T` also matches `t`). -/
def litCI (c : Char) (l : PyStr) : Option PyStr :=
  match l with
  | x :: rest => if x.toLower == c.toLower then some rest else none
  | [] => none

/-- The `%z` directive: `Z` (case-sensitive) or
`[+-]\d\d:?[0-5]\d(:?[0-5]\d)?`; returns the offset in seconds.  The
fractional-seconds form never occurs in the claims and is omitted. -/
def parseTz (l : PyStr) : Option (Int × PyStr) :=
  match l with
  | 'Z' :: rest => some (0, rest)
  | c :: rest =>
    if c == '+' || c == '-' then
      (takeD 2 rest).bind fun hr =>
      let afterColon := match hr.2 with
        | ':' :: t => t
        | t => t
      (takeD 2 afterColon).bind fun mr =>
      if mr.1 ≥ 60 then none
      else
        let secPart : Option (Nat × PyStr) :=
          match mr.2 with
          | ':' :: t =>
            (takeD 2 t).bind fun sr => if sr.1 ≥ 60 then none else some sr
          | t =>
            match takeD 2 t with
            | some sr => if sr.1 ≥ 60 then none else some sr
            | none => none
        let fin : Nat × PyStr := match secPart with
          | some sr => sr
          | none => (0, mr.2)
        let total : Int := (hr.1 * 3600 + mr.1 * 60 + fin.1 : Nat)
        some (if c == '-' then -total else total, fin.2)
    else none
  | [] => none

/-- `strptime(text, "%Y-%m-%dT%H:%M:%S%z")` followed by the `datetime`
constructor's validation (including `timezone`'s strict 24-hour bound);
`none` models the caught `ValueError`. -/
def strptimeOffs (t : PyStr) : Option PyDateTime :=
  (takeD 4 t).bind fun yr =>
  (litC '-' yr.2).bind fun r1 =>
  (num21 (fun v => 1 ≤ v && v ≤ 12) (fun v => 1 ≤ v) r1).bind fun mo =>
  (litC '-' mo.2).bind fun r2 =>
  (num21 (fun v => 1 ≤ v && v ≤ 31) (fun v => 1 ≤ v) r2).bind fun dy =>
  (litCI 'T' dy.2).bind fun r3 =>
  (num21 (fun v => v ≤ 23) (fun _ => true) r3).bind fun hh =>
  (litC ':' hh.2).bind fun r4 =>
  (num21 (fun v => v ≤ 59) (fun _ => true) r4).bind fun mi =>
  (litC ':' mi.2).bind fun r5 =>
  (num21 (fun v => v ≤ 61) (fun _ => true) r5).bind fun ss =>
  (parseTz ss.2).bind fun tz =>
  if tz.2.isEmpty && dateValid yr.1 mo.1 dy.1 && ss.1 ≤ 59 &&
      tz.1.natAbs < 86400 then
    some ⟨yr.1, mo.1, dy.1, hh.1, mi.1, ss.1, some tz.1⟩
  else none

/-- `strptime(text, "%Y-%m-%dT%H:%M:%S")`, validated; naive result. -/
def strptimeNaive (t : PyStr) : Option PyDateTime :=
  (takeD 4 t).bind fun yr =>
  (litC '-' yr.2).bind fun r1 =>
  (num21 (fun v => 1 ≤ v && v ≤ 12) (fun v => 1 ≤ v) r1).bind fun mo =>
  (litC '-' mo.2).bind fun r2 =>
  (num21 (fun v => 1 ≤ v && v ≤ 31) (fun v => 1 ≤ v) r2).bind fun dy =>
  (litCI 'T' dy.2).bind fun r3 =>
  (num21 (fun v => v ≤ 23) (fun _ => true) r3).bind fun hh =>
  (litC ':' hh.2).bind fun r4 =>
  (num21 (fun v => v ≤ 59) (fun _ => true) r4).bind fun mi =>
  (litC ':' mi.2).bind fun r5 =>
  (num21 (fun v => v ≤ 61) (fun _ => true) r5).bind fun ss =>
  if ss.2.isEmpty && dateValid yr.1 mo.1 dy.1 && ss.1 ≤ 59 then
    some ⟨yr.1, mo.1, dy.1, hh.1, mi.1, ss.1, none⟩
  else none

/-- `strptime(text, "%Y-%m-%d")` followed by the explicit
`datetime(dt.year, dt.month, dt.day)` midnight normalization. -/
def strptimeDate (t : PyStr) : Option PyDateTime :=
  (takeD 4 t).bind fun yr =>
  (litC '-' yr.2).bind fun r1 =>
  (num21 (fun v => 1 ≤ v && v ≤ 12) (fun v => 1 ≤ v) r1).bind fun mo =>
  (litC '-' mo.2).bind fun r2 =>
  (num21 (fun v => 1 ≤ v && v ≤ 31) (fun v => 1 ≤ v) r2).bind fun dy =>
  if dy.2.isEmpty && dateValid yr.1 mo.1 dy.1 then
    some ⟨yr.1, mo.1, dy.1, 0, 0, 0, none⟩
  else none

/-- The digit character for `n < 10`. -/
def digitChar (n : Nat) : Char := Char.ofNat ('0'.toNat + n)

/-- Two-digit zero-padded decimal. -/
def pad2 (n : Nat) : PyStr := [digitChar (n / 10 % 10), digitChar (n % 10)]

/-- Four-digit zero-padded decimal. -/
def pad4 (n : Nat) : PyStr :=
  [digitChar (n / 1000 % 10), digitChar (n / 100 % 10),
   digitChar (n / 10 % 10), digitChar (n % 10)]

/-- `datetime.isoformat()`: seconds always printed, microseconds never
present here; an aware value appends `±HH:MM`, plus `:SS` when the offset
has a seconds component. -/
def isoFmt (dt : PyDateTime) : PyStr :=
  pad4 dt.year ++ ['-'] ++ pad2 dt.month ++ ['-'] ++ pad2 dt.day ++ ['T'] ++
    pad2 dt.hour ++ [':'] ++ pad2 dt.minute ++ [':'] ++ pad2 dt.second ++
    (match dt.tzOff with
     | none => []
     | some off =>
       let a := off.natAbs
       (if off < 0 then ['-'] else ['+']) ++ pad2 (a / 3600) ++ [':'] ++
         pad2 (a % 3600 / 60) ++
         (if a % 60 != 0 then ':' :: pad2 (a % 60) else []))

/-- `val.replace("Z", "+00:00")`. -/
def replZ (s : PyStr) : PyStr :=
  (s.map (fun c => if c == 'Z' then strL "+00:00" else [c])).flatten

/-- The optional time-of-day tail accepted by `datetime.fromisoformat`
after the single separator character:
`HH[:MM[:SS[.ffffff]]][±HH:MM[:SS]]`, fully consumed. -/
def fromisoTimeOk (l : PyStr) : Bool :=
  match takeD 2 l with
  | none => false
  | some hr =>
    if hr.1 ≥ 24 then false
    else
      let afterM : Option PyStr :=
        match hr.2 with
        | ':' :: t =>
          (takeD 2 t).bind fun mr =>
          if mr.1 ≥ 60 then none
          else
            match mr.2 with
            | ':' :: t2 =>
              (takeD 2 t2).bind fun sr =>
              if sr.1 ≥ 60 then none
              else
                match sr.2 with
                | '.' :: t3 =>
                  let fs := t3.takeWhile Char.isDigit
                  if fs.isEmpty || fs.length > 6 then none
                  else some (t3.dropWhile Char.isDigit)
                | t3 => some t3
            | t2 => some t2
        | t => some t
      match afterM with
      | none => false
      | some rest =>
        match rest with
        | [] => true
        | c :: t =>
          if c == '+' || c == '-' then
            match (takeD 2 t).bind (fun ohr =>
              (litC ':' ohr.2).bind fun t2 =>
              (takeD 2 t2).bind fun omr =>
              if omr.1 ≥ 60 || ohr.1 * 3600 + omr.1 * 60 ≥ 86400 then none
              else
                match omr.2 with
                | ':' :: t3 =>
                  (takeD 2 t3).bind fun osr =>
                  if osr.1 ≥ 60 then none else some osr.2
                | t3 => some t3) with
            | some [] => true
            | _ => false
          else false

/-- `datetime.fromisoformat` (documented core profile): a zero-padded
valid date, optionally followed by one separator character and a time
tail. -/
def fromisoOk (l : PyStr) : Bool :=
  match (takeD 4 l).bind (fun yr =>
    (litC '-' yr.2).bind fun r1 =>
    (takeD 2 r1).bind fun mo =>
    (litC '-' mo.2).bind fun r2 =>
    (takeD 2 r2).map fun dy => (yr.1, mo.1, dy.1, dy.2)) with
  | none => false
  | some (y, m, d, rest) =>
    if !dateValid y m d then false
    else
      match rest with
      | [] => true
      | _ :: timePart => fromisoTimeOk timePart

/-- The datetime-attribute step of `_parse_timestamp`: the attribute's
value, if present with truthy stripped content and accepted by
`fromisoformat` after `Z` replacement. -/
def dtAttrHit (el : Node) : Option PyStr :=
  match el.getAttr "datetime" with
  | some v =>
    if !(pyStripL v).isEmpty && fromisoOk (replZ v) then some v else none
  | none => none

/-- `_parse_timestamp`.  A `Tag` is always truthy, so the `if not element`
guard only rejects `None`/falsy strings, which callers never pass; text
nodes are modelled with string truthiness for completeness. -/
def parse_timestamp (el : Node) : Option PyStr :=
  let truthy := match el with
    | .elem _ _ _ => true
    | .text s => !s.isEmpty
  if !truthy then none
  else
    match dtAttrHit el with
    | some v => some v
    | none =>
      let t := el.getTextStrip
      if t.isEmpty then none
      else
        match strptimeOffs t with
        | some dt => some (isoFmt dt ++ ['Z'])
        | none =>
          match strptimeNaive t with
          | some dt => some (isoFmt dt ++ ['Z'])
          | none =>
            match strptimeDate t with
            | some dt => some (isoFmt dt ++ ['Z'])
            | none => none

/-- Deduplicate by key (`id(elem)`), preserving first-seen order. -/
def dedupByKey (seen : List (List Nat)) :
    List (List Nat × Node) → List (List Nat × Node)
  | [] => []
  | (k, n) :: rest =>
    if k ∈ seen then dedupByKey seen rest
    else (k, n) :: dedupByKey (k :: seen) rest

/-- The candidate posts: the three selectors in order, concatenated, then
identity-deduplicated preserving first-seen order. -/
def uniqPosts (doc : Node) : List Node :=
  (dedupByKey []
    (doc.selectPaths (classHas "post") [] ++
     doc.selectPaths (classHas "feed-item") [] ++
     doc.selectPaths (classHas "status") [])).map Prod.snd

/-- The body element: a class-"content" descendant, else the first `p`
descendant, else the post itself (found tags are always truthy). -/
def bodyElemOf (post : Node) : Node :=
  match post.findDesc (classHas "content") with
  | some e => e
  | none =>
    match post.findDesc (tagIs "p") with
    | some e => e
    | none => post

/-- The likes-element class filter (`like` or `reaction`). -/
def likePred (n : Node) : Bool := classHas "like" n || classHas "reaction" n

/-- The post's likes count:
`_parse_likes(likes_elem.get_text()) if likes_elem else None`. -/
def postLikesOf (post : Node) : Option Nat :=
  match post.findDesc likePred with
  | some e => parse_likes e.getTextRaw
  | none => none

/-- The post's timestamp: a `time` element or class-"time" descendant,
run through `_parse_timestamp`. -/
def postTimeOf (post : Node) : Option PyStr :=
  match (post.findDesc (tagIs "time")).orElse
      (fun _ => post.findDesc (classHas "time")) with
  | some e => parse_timestamp e
  | none => none

/-- The base record emitted for a post itself. -/
def baseRecord (body : PyStr) (likes : Option Nat) (ts : Option PyStr)
    (category : Option PyStr) (source_url : PyStr) : Dict :=
  [("stock_name", .null), ("ticker", .null), ("investor_name", .null),
   ("investor_stats", .null), ("post_content", .s body),
   ("comment_text", .null),
   ("likes_count", match likes with | some n => .i n | none => .null),
   ("post_date", optV ts), ("category", optV category),
   ("source_url", .s source_url)]

/-- The record emitted for a surviving comment node. -/
def commentRecord (body ctext : PyStr) (likes : Option Nat)
    (ts : Option PyStr) (category : Option PyStr) (source_url : PyStr) : Dict :=
  [("stock_name", .null), ("ticker", .null), ("investor_name", .null),
   ("investor_stats", .null), ("post_content", .s body),
   ("comment_text", .s ctext),
   ("likes_count", match likes with | some n => .i n | none => .null),
   ("post_date", optV ts), ("category", optV category),
   ("source_url", .s source_url)]

/-- One comment node's contribution: skipped when its text is empty or
equals the post body; its timestamp falls back to the post's. -/
def commentRecOf (body : PyStr) (postTs : Option PyStr)
    (category : Option PyStr) (source_url : PyStr) (cn : Node) : List Dict :=
  let ctext := cn.getTextSep
  if ctext.isEmpty || ctext == body then []
  else
    let clikes := match cn.findDesc likePred with
      | some e => parse_likes e.getTextRaw
      | none => none
    let cts := match cn.findDesc (tagIs "time") with
      | some e => parse_timestamp e
      | none => postTs
    [commentRecord body ctext clikes cts category source_url]

/-- All records contributed by one unique post fragment: nothing when its
visible text is empty, else its base record followed by its surviving
comment records in document order. -/
def postBlock (category : Option PyStr) (source_url : PyStr)
    (post : Node) : List Dict :=
  if post.getTextSep.isEmpty then []
  else
    let body := (bodyElemOf post).getTextSep
    let ts := postTimeOf post
    baseRecord body (postLikesOf post) ts category source_url ::
      (post.selectDesc (classHas "comment")).foldl
        (fun acc cn => acc ++ commentRecOf body ts category source_url cn) []

/-- `parse_posts_page`: the loop over unique posts, appending each post's
records to the running list. -/
def parse_posts_page (doc : Node) (source_url : PyStr)
    (category : Option PyStr) : List Dict :=
  (uniqPosts doc).foldl
    (fun acc post => acc ++ postBlock category source_url post) []

/-!  ## Record normalizer (`main.py`)  -/

/-- Python truthiness of a field value. -/
def pyTruthy (v : Value) : Bool :=
  match v with
  | .null => false
  | .s s => !s.isEmpty
  | .i n => n != 0
  | .m l => !l.isEmpty

/-- Dict lookup (first entry with the given key). -/
def dlookup (k : String) : Dict → Option Value
  | [] => none
  | (a, v) :: t => if a == k then some v else dlookup k t

/-- `record.update(partial)`: existing keys are overwritten in place, new
keys are appended in the partial's order. -/
def dictUpd (d p : Dict) : Dict :=
  (d.map fun kv =>
    match dlookup kv.1 p with
    | some v => (kv.1, v)
    | none => kv) ++
    p.filter fun kv => (dlookup kv.1 d).isNone

/-- `record[k] = v`: overwrite in place, else append. -/
def dictSet (d : Dict) (k : String) (v : Value) : Dict :=
  if (dlookup k d).isSome then
    d.map fun kv => cond (kv.1 == k) (k, v) kv
  else d ++ [(k, v)]

/-- `normalize_record` from `main.py`; `part` is the extractor's partial
record (the Python parameter name is `partial`).  The `or` chains return
the first truthy operand, else the last operand unchanged. -/
def normalize_record (part : Dict) (category : Option PyStr)
    (source_url : PyStr) : Dict :=
  let record : Dict := dictUpd (FIELD_NAMES.map fun f => (f, Value.null)) part
  let catCur := (dlookup "category" record).getD .null
  let catArg : Option Value := match category with
    | some c => some (.s c)
    | none => none
  let catVal :=
    match dlookup "category" part with
    | some v =>
      if pyTruthy v then v
      else
        (match catArg with
         | some a => if pyTruthy a then a else catCur
         | none => catCur)
    | none =>
      match catArg with
      | some a => if pyTruthy a then a else catCur
      | none => catCur
  let record2 := dictSet record "category" catVal
  let srcVal :=
    match dlookup "source_url" part with
    | some v => if pyTruthy v then v else .s source_url
    | none => .s source_url
  dictSet record2 "source_url" srcVal

/-!  ## Spec-side definitions and concrete example documents

`specDerivedName` and `specDigitRun` restate the specification's wording
so the corresponding claims can compare it with the code's behaviour; the
example documents are the pages named in the claims.  -/

/-- Keep an optional string only when it is non-empty. -/
def nonEmptyOpt (o : Option PyStr) : Option PyStr :=
  match o with
  | some s => if s.isEmpty then none else some s
  | none => none

/-- Modelled from the spec's wording for the stock extractor: the derived
stock name is the first non-empty candidate of the chain Open-Graph
title, first `h1`, document title. -/
def specDerivedName (doc : Node) : Option PyStr :=
  (nonEmptyOpt (ogAssign doc)).orElse fun _ =>
  (h1Assign doc).orElse fun _ =>
  nonEmptyOpt (titleAssign doc)

/-- Modelled from the spec's wording for `_parse_likes`: the first
contiguous run of digit characters after skipping any non-digit
lead-in. -/
def specDigitRun (t : PyStr) : PyStr :=
  (t.dropWhile (fun c => !c.isDigit)).takeWhile Char.isDigit

/-- A position carries one of the three 12-month marker tokens of the
spec: `12m`, `12 months` (any whitespace), or `1y`, case-insensitively. -/
def marker12At (l : PyStr) : Bool :=
  (matchCI (strL "12m") l).isSome ||
    ((matchCI (strL "12") l).map (List.dropWhile wsB)
      |>.bind (matchCI (strL "months"))).isSome ||
    (matchCI (strL "1y") l).isSome

/-- The text contains a 12-month marker token at some position. -/
def hasMarker12 (t : PyStr) : Bool :=
  (searchPos (fun l => if marker12At l then some () else none) t).isSome

/-- The page of claim C3: an Open-Graph title "TSLA (Tesla, Inc.)" and
nothing else. -/
def tslaDoc : Node :=
  .elem "[document]" []
    [.elem "html" []
      [.elem "head" []
        [.elem "meta"
          [("property", strL "og:title"), ("content", strL "TSLA (Tesla, Inc.)")]
          []]]]

/-- The page of claim C3 with no Open-Graph title, no heading and no
document title. -/
def bareDoc : Node :=
  .elem "[document]" []
    [.elem "html" [] [.elem "body" [] [.elem "div" [] [.text (strL "hello")]]]]

/-- The fragment of claim C4: one post whose body element says "hello",
with one duplicate comment ("hello") and one distinct comment
("world"). -/
def dupCommentDoc : Node :=
  .elem "[document]" []
    [.elem "html" []
      [.elem "body" []
        [.elem "div" [("class", strL "post")]
          [.elem "div" [("class", strL "content")] [.text (strL "hello")],
           .elem "div" [("class", strL "comment")] [.text (strL "hello")],
           .elem "div" [("class", strL "comment")] [.text (strL "world")]]]]]

/-- A page with a single investor card whose text yields a crude name and
a risk score. -/
def invDoc : Node :=
  .elem "[document]" []
    [.elem "html" []
      [.elem "div" [("class", strL "investor-card")]
        [.text (strL "Alice Risk score 7")]]]

/-- An element whose visible text bears an explicit UTC offset; the input
of the C2 counterexample. -/
def offsetTextEl : Node :=
  .elem "span" [] [.text (strL "2025-03-22T14:30:00+00:00")]

/-- A `time` element carrying a machine-readable datetime attribute. -/
def dtAttrEl : Node :=
  .elem "time" [("datetime", strL "2025-03-22T14:30:00Z")] [.text (strL "x")]

/-- An element whose visible text is a bare date. -/
def dateTextEl : Node :=
  .elem "span" [] [.text (strL "2025-03-22")]

/-!  ## Helper lemmas  -/

theorem dropWhile_cons_false {α : Type} (p : α → Bool) (c : α) (l : List α)
    (hc : p c = false) : (c :: l).dropWhile p = c :: l := by
  simp [List.dropWhile, hc]

theorem dropWhile_head_false {α : Type} (p : α → Bool) :
    ∀ {l r : List α} {c : α}, l.dropWhile p = c :: r → p c = false := by
  intro l
  induction l with
  | nil => intro r c h; simp [List.dropWhile] at h
  | cons a t ih =>
    intro r c h
    by_cases hp : p a
    · rw [List.dropWhile_cons, if_pos hp] at h
      exact ih h
    · rw [List.dropWhile_cons, if_neg hp] at h
      cases h
      exact Bool.eq_false_iff.mpr hp

theorem dropWhile_dropWhile_of_imp {α : Type} (p q : α → Bool)
    (h : ∀ c, q c = true → p c = true) :
    ∀ l : List α, (l.dropWhile q).dropWhile p = l.dropWhile p := by
  intro l
  induction l with
  | nil => rfl
  | cons a t ih =>
    by_cases hq : q a
    · rw [List.dropWhile_cons, if_pos hq, ih, List.dropWhile_cons,
        if_pos (h a hq)]
    · rw [List.dropWhile_cons, if_neg hq]

theorem dropWhile_eq_nil_of_all {α : Type} (p : α → Bool) :
    ∀ l : List α, (∀ c ∈ l, p c = true) → l.dropWhile p = [] := by
  intro l
  induction l with
  | nil => intro _; rfl
  | cons a t ih =>
    intro h
    rw [List.dropWhile_cons, if_pos (h a (by simp))]
    exact ih (fun c hc => h c (by simp [hc]))

theorem takeWhile_append_nomatch {α : Type} (p : α → Bool) (tws : List α)
    (h : ∀ c ∈ tws, p c = false) :
    ∀ m : List α, (m ++ tws).takeWhile p = m.takeWhile p := by
  intro m
  induction m with
  | nil =>
    cases tws with
    | nil => rfl
    | cons a t =>
      simp only [List.nil_append, List.takeWhile_cons, List.takeWhile_nil]
      rw [h a (by simp)]
      simp
  | cons a t ih =>
    simp only [List.cons_append, List.takeWhile_cons]
    by_cases hp : p a
    · rw [hp, ih]
    · rw [Bool.eq_false_iff.mpr hp]
      simp

theorem mem_takeWhile_eq_true {α : Type} (p : α → Bool) :
    ∀ l : List α, ∀ a ∈ l.takeWhile p, p a = true := by
  intro l
  induction l with
  | nil => intro a ha; simp [List.takeWhile] at ha
  | cons b t ih =>
    intro a ha
    rw [List.takeWhile_cons] at ha
    by_cases hb : p b
    · rw [if_pos hb] at ha
      rcases List.mem_cons.mp ha with rfl | ha2
      · exact hb
      · exact ih a ha2
    · rw [if_neg hb] at ha
      simp at ha

theorem dropWhile_append_last {α : Type} (p : α → Bool) (a : α)
    (ha : p a = false) :
    ∀ xs : List α, (xs ++ [a]).dropWhile p = xs.dropWhile p ++ [a] := by
  intro xs
  induction xs with
  | nil => simp [List.dropWhile, ha]
  | cons x t ih =>
    by_cases hx : p x
    · simp only [List.cons_append, List.dropWhile_cons, if_pos hx]
      exact ih
    · simp [List.dropWhile_cons, if_neg hx]

theorem strip_decomp (p : Char → Bool) (t : PyStr) :
    ∃ tws, t = (t.reverse.dropWhile p).reverse ++ tws ∧
      ∀ c ∈ tws, p c = true := by
  refine ⟨(t.reverse.takeWhile p).reverse, ?_, ?_⟩
  · conv_lhs => rw [← List.reverse_reverse t,
      ← List.takeWhile_append_dropWhile (p := p) (l := t.reverse)]
    rw [List.reverse_append]
  · intro c hc
    rw [List.mem_reverse] at hc
    exact mem_takeWhile_eq_true p t.reverse c hc

theorem pyStripL_cons_head {c : Char} (hc : wsB c = false) (r : PyStr) :
    ∃ r2, pyStripL (c :: r) = c :: r2 := by
  unfold pyStripL
  rw [List.reverse_cons, dropWhile_append_last wsB c hc, List.reverse_append]
  simp only [List.reverse_cons, List.reverse_nil, List.nil_append,
    List.singleton_append]
  exact ⟨(r.reverse.dropWhile wsB).reverse, dropWhile_cons_false wsB c _ hc⟩

theorem joinSep_cons (sep : PyStr) (p : PyStr) (ps : List PyStr) :
    ∃ rest, joinSep sep (p :: ps) = p ++ rest := by
  cases ps with
  | nil => exact ⟨[], by simp [joinSep]⟩
  | cons q qs => exact ⟨sep ++ joinSep sep (q :: qs), by simp [joinSep]⟩

theorem mem_textPieces (n : Node) :
    ∀ p ∈ n.textPieces, p ≠ [] ∧ ∃ q, p = pyStripL q := by
  intro p hp
  unfold Node.textPieces at hp
  rw [List.mem_filter] at hp
  obtain ⟨hmem, hne⟩ := hp
  rw [List.mem_map] at hmem
  obtain ⟨q, _, rfl⟩ := hmem
  refine ⟨?_, q, rfl⟩
  simpa using hne

theorem getTextSep_head (n : Node) :
    ∀ {c : Char} {r : PyStr}, n.getTextSep = c :: r → wsB c = false := by
  intro c r h
  unfold Node.getTextSep at h
  cases hps : n.textPieces with
  | nil => rw [hps] at h; simp [joinSep] at h
  | cons p ps =>
    rw [hps] at h
    obtain ⟨rest, hj⟩ := joinSep_cons [' '] p ps
    rw [hj] at h
    have hpmem : p ∈ n.textPieces := by rw [hps]; simp
    obtain ⟨hne, q, hq⟩ := mem_textPieces n p hpmem
    cases hp0 : p with
    | nil => exact absurd hp0 hne
    | cons c0 p' =>
      rw [hp0] at h
      simp only [List.cons_append] at h
      obtain ⟨rfl, -⟩ := List.cons.inj h
      have : pyStripL q = c0 :: p' := by rw [← hq, hp0]
      unfold pyStripL at this
      exact dropWhile_head_false wsB this

theorem beforeTwoSp_cons_ne {c : Char} (hc : (c == ' ') = false) (r : PyStr) :
    beforeTwoSp (c :: r) = c :: beforeTwoSp r := by
  simp [beforeTwoSp, hc]

theorem crudeName_ne_nil {c : Char} (hc : wsB c = false) (r : PyStr) :
    crudeName (c :: r) ≠ [] := by
  have hsp : (c == ' ') = false := by
    cases hcs : c == ' '
    · rfl
    · exfalso
      have : c = ' ' := by simpa using hcs
      subst this
      simp [wsB] at hc
  unfold crudeName
  rw [beforeTwoSp_cons_ne hsp]
  obtain ⟨r1, h1⟩ := pyStripL_cons_head hc (beforeTwoSp r)
  rw [h1, List.takeWhile_cons]
  rw [show (!(c == ' ')) = true from by rw [hsp]; rfl]
  simp only [if_true]
  obtain ⟨r2, h2⟩ := pyStripL_cons_head hc (r1.takeWhile fun c => !(c == ' '))
  rw [h2]
  simp

theorem mem_runsGo_ne_nil (p : Char → Bool) :
    ∀ (l : PyStr) (cur : PyStr) (r : PyStr), r ∈ runsGo p cur l → r ≠ [] := by
  intro l
  induction l with
  | nil =>
    intro cur r hr
    unfold runsGo at hr
    by_cases hcur : cur.isEmpty
    · rw [if_pos hcur] at hr; simp at hr
    · rw [if_neg hcur] at hr
      rcases List.mem_singleton.mp hr with rfl
      simp only [ne_eq, List.reverse_eq_nil_iff]
      simpa [List.isEmpty_iff] using hcur
  | cons a t ih =>
    intro cur r hr
    unfold runsGo at hr
    by_cases ha : p a
    · rw [if_pos ha] at hr
      exact ih (a :: cur) r hr
    · rw [if_neg ha] at hr
      by_cases hcur : cur.isEmpty
      · rw [if_pos hcur] at hr
        exact ih [] r hr
      · rw [if_neg hcur] at hr
        rcases List.mem_cons.mp hr with rfl | hr2
        · simp only [ne_eq, List.reverse_eq_nil_iff]
          simpa [List.isEmpty_iff] using hcur
        · exact ih [] r hr2

theorem mem_of_head?_eq {α : Type} {l : List α} {a : α}
    (h : l.head? = some a) : a ∈ l := by
  cases l with
  | nil => simp at h
  | cons x xs =>
    simp only [List.head?_cons, Option.some.injEq] at h
    subst h
    simp

theorem guess_ticker_some_ne_nil {title r} :
    guess_ticker_from_title title = some r → r ≠ [] := by
  intro h
  simp only [guess_ticker_from_title] at h
  rw [if_neg ?hne] at h
  case hne =>
    intro hemp
    rw [if_pos hemp] at h
    cases h
  have hmem2 := List.mem_filter.mp (mem_of_head?_eq h)
  exact mem_runsGo_ne_nil isWordB _ [] r hmem2.1

theorem searchPos_none_of_test {α : Type} (f : PyStr → Option α)
    (g : PyStr → Bool) (hstep : ∀ l, g l = false → f l = none) :
    ∀ t, (searchPos (fun l => if g l then some () else none) t).isSome = false →
      searchPos f t = none := by
  intro t
  induction t with
  | nil =>
    intro h
    unfold searchPos at h ⊢
    by_cases hg : g []
    · rw [if_pos hg] at h; simp at h
    · exact hstep [] (Bool.eq_false_iff.mpr hg)
  | cons c r ih =>
    intro h
    unfold searchPos at h ⊢
    by_cases hg : g (c :: r)
    · rw [if_pos hg] at h; simp at h
    · rw [if_neg hg] at h
      rw [hstep (c :: r) (Bool.eq_false_iff.mpr hg)]
      exact ih h

theorem foldl_append_eq {α β : Type} (g : α → List β) :
    ∀ (l : List α) (acc : List β),
      l.foldl (fun a x => a ++ g x) acc = acc ++ (l.map g).flatten := by
  intro l
  induction l with
  | nil => intro acc; simp
  | cons x t ih =>
    intro acc
    simp only [List.foldl_cons, List.map_cons, List.flatten_cons]
    rw [ih (acc ++ g x), List.append_assoc]

theorem foldl_skip_emit {α β : Type} (e : α → Bool) (g : α → β) :
    ∀ (l : List α) (acc : List β),
      l.foldl (fun a x => if e x then a else a ++ [g x]) acc =
        acc ++ (l.filter (fun x => !e x)).map g := by
  intro l
  induction l with
  | nil => intro acc; simp
  | cons x t ih =>
    intro acc
    simp only [List.foldl_cons, List.filter_cons]
    by_cases hx : e x
    · rw [if_pos hx, ih]
      simp [hx]
    · rw [if_neg hx, ih]
      simp [hx]

theorem ws_not_digit : ∀ c, wsB c = true → c.isDigit = false := by
  intro c h
  simp only [wsB, Bool.or_eq_true, beq_iff_eq] at h
  rcases h with ((((h | h) | h) | h) | h) | h <;> subst h <;> decide

theorem ws_not_digit' : ∀ c, wsB c = true → (!c.isDigit) = true := by
  intro c h
  rw [ws_not_digit c h]
  rfl

theorem specDigitRun_append_ws (tws : PyStr)
    (h : ∀ c ∈ tws, wsB c = true) :
    ∀ m : PyStr, specDigitRun (m ++ tws) = specDigitRun m := by
  intro m
  induction m with
  | nil =>
    unfold specDigitRun
    rw [List.nil_append, dropWhile_eq_nil_of_all _ tws
      (fun c hc => ws_not_digit' c (h c hc))]
    rfl
  | cons c m' ih =>
    unfold specDigitRun
    by_cases hc : c.isDigit
    · rw [List.cons_append, dropWhile_cons_false _ c _ (by simp [hc]),
        dropWhile_cons_false _ c _ (by simp [hc]),
        List.takeWhile_cons, List.takeWhile_cons, hc]
      simp only [if_true]
      rw [takeWhile_append_nomatch Char.isDigit tws
        (fun c2 hc2 => ws_not_digit c2 (h c2 hc2)) m']
    · simp only [List.cons_append, List.dropWhile_cons]
      rw [show (!c.isDigit) = true from by simp [hc]]
      simp only [if_true]
      exact ih

theorem specDigitRun_pyStripL (t : PyStr) :
    specDigitRun (pyStripL t) = specDigitRun t := by
  obtain ⟨tws, hdec, hws⟩ := strip_decomp wsB t
  have h1 : specDigitRun (pyStripL t) =
      specDigitRun ((t.reverse.dropWhile wsB).reverse) := by
    unfold pyStripL specDigitRun
    rw [dropWhile_dropWhile_of_imp _ wsB ws_not_digit']
  rw [h1]
  conv_rhs => rw [hdec]
  rw [specDigitRun_append_ws tws hws]

theorem specDigitRun_nil_of_strip_nil (t : PyStr) (h : pyStripL t = []) :
    specDigitRun t = [] := by
  rw [← specDigitRun_pyStripL t, h]
  rfl


theorem dlookup_append (k : String) :
    ∀ l1 l2 : Dict, dlookup k (l1 ++ l2) =
      (dlookup k l1).orElse (fun _ => dlookup k l2) := by
  intro l1 l2
  induction l1 with
  | nil => simp [dlookup, Option.orElse]
  | cons kv t ih =>
    obtain ⟨a, b⟩ := kv
    by_cases hak : (a == k) = true
    · simp [dlookup, hak, Option.orElse]
    · have hne : (a == k) = false := Bool.eq_false_iff.mpr hak
      simp only [List.cons_append, dlookup, hne, Bool.false_eq_true, if_false]
      exact ih

theorem dlookup_map_upd (p : Dict) (k : String) :
    ∀ d : Dict,
      dlookup k (d.map fun kv =>
        match dlookup kv.1 p with
        | some v => (kv.1, v)
        | none => kv) =
      (match dlookup k d with
       | some v0 => some ((dlookup k p).getD v0)
       | none => none) := by
  intro d
  induction d with
  | nil => simp [dlookup]
  | cons kv t ih =>
    obtain ⟨a, b⟩ := kv
    by_cases hak : (a == k) = true
    · have hae : a = k := by simpa using hak
      subst hae
      cases hp : dlookup a p with
      | none => simp [dlookup, hp]
      | some v => simp [dlookup, hp]
    · have hne : (a == k) = false := Bool.eq_false_iff.mpr hak
      cases hp : dlookup a p with
      | none =>
        simp only [List.map_cons, hp, dlookup, hne, Bool.false_eq_true,
          if_false]
        exact ih
      | some v =>
        simp only [List.map_cons, hp, dlookup, hne, Bool.false_eq_true,
          if_false]
        exact ih

theorem dlookup_filter_keep (k : String) (q : String × Value → Bool)
    (hq : ∀ v, q (k, v) = true) :
    ∀ p : Dict, dlookup k (p.filter q) = dlookup k p := by
  intro p
  induction p with
  | nil => rfl
  | cons kv t ih =>
    obtain ⟨a, b⟩ := kv
    by_cases hak : (a == k) = true
    · have hae : a = k := by simpa using hak
      subst hae
      simp [List.filter_cons, hq b, dlookup]
    · have hne : (a == k) = false := Bool.eq_false_iff.mpr hak
      by_cases hqb : q (a, b) = true
      · simp only [List.filter_cons, hqb, if_true, dlookup, hne,
          Bool.false_eq_true, if_false]
        exact ih
      · simp only [List.filter_cons, Bool.eq_false_iff.mpr hqb,
          Bool.false_eq_true, if_false]
        rw [ih]
        simp [dlookup, hne]

theorem dlookup_dictUpd (d p : Dict) (k : String) :
    dlookup k (dictUpd d p) =
      (match dlookup k d with
       | some v => some ((dlookup k p).getD v)
       | none => dlookup k p) := by
  unfold dictUpd
  rw [dlookup_append, dlookup_map_upd]
  cases hd : dlookup k d with
  | some v => simp [Option.orElse]
  | none =>
    simp only [Option.orElse, Option.none_orElse]
    exact dlookup_filter_keep k _ (fun v => by simp [hd]) p

theorem dlookup_map_set_self (k : String) (v : Value) :
    ∀ d : Dict, (dlookup k d).isSome = true →
      dlookup k (d.map fun kv => cond (kv.1 == k) (k, v) kv) = some v := by
  intro d
  induction d with
  | nil => intro h; simp [dlookup] at h
  | cons kv t ih =>
    obtain ⟨a, b⟩ := kv
    intro h
    by_cases hak : (a == k) = true
    · simp [hak, dlookup]
    · have hne : (a == k) = false := Bool.eq_false_iff.mpr hak
      simp only [List.map_cons, cond, hne, dlookup, Bool.false_eq_true,
        if_false]
      apply ih
      simp only [dlookup, hne, Bool.false_eq_true, if_false] at h
      exact h

theorem dlookup_map_set_other (k : String) (v : Value) (k2 : String)
    (hne : (k == k2) = false) :
    ∀ d : Dict,
      dlookup k2 (d.map fun kv => cond (kv.1 == k) (k, v) kv) =
        dlookup k2 d := by
  intro d
  induction d with
  | nil => rfl
  | cons kv t ih =>
    obtain ⟨a, b⟩ := kv
    by_cases hak : (a == k) = true
    · have hae : a = k := by simpa using hak
      subst hae
      simp only [List.map_cons, beq_self_eq_true, cond, dlookup, hne,
        Bool.false_eq_true, if_false]
      exact ih
    · have hne2 : (a == k) = false := Bool.eq_false_iff.mpr hak
      simp only [List.map_cons, hne2, cond, dlookup]
      by_cases hak2 : (a == k2) = true
      · simp [hak2]
      · simp only [Bool.eq_false_iff.mpr hak2, Bool.false_eq_true, if_false]
        exact ih

theorem dlookup_dictSet_self (d : Dict) (k : String) (v : Value) :
    dlookup k (dictSet d k v) = some v := by
  unfold dictSet
  by_cases h : (dlookup k d).isSome = true
  · rw [if_pos h]
    exact dlookup_map_set_self k v d h
  · rw [if_neg h]
    have hd : dlookup k d = none := by
      cases hx : dlookup k d
      · rfl
      · exact absurd (by simp [hx]) h
    rw [dlookup_append, hd]
    simp [Option.orElse, dlookup]

theorem dlookup_dictSet_other (d : Dict) (k : String) (v : Value)
    (k2 : String) (h : ¬k = k2) :
    dlookup k2 (dictSet d k v) = dlookup k2 d := by
  have hne : (k == k2) = false := by
    cases hx : k == k2
    · rfl
    · exact absurd (by simpa using hx) h
  unfold dictSet
  by_cases hs : (dlookup k d).isSome = true
  · rw [if_pos hs]
    exact dlookup_map_set_other k v k2 hne d
  · rw [if_neg hs]
    rw [dlookup_append]
    cases hx : dlookup k2 d with
    | some w => simp [Option.orElse, hx]
    | none => simp [Option.orElse, hx, dlookup, hne]

theorem parse_investor_eq (doc : Node) (u : PyStr) (c : Option PyStr) :
    parse_investor_page doc u c =
      ((doc.selectDesc invCardPred).filter
        (fun card => !(card.getTextSep).isEmpty)).map
        (fun card => invRecord (invNameOf card card.getTextSep)
          (build_stats card.getTextSep) c u) := by
  unfold parse_investor_page
  have := foldl_skip_emit (fun card : Node => (card.getTextSep).isEmpty)
    (fun card => invRecord (invNameOf card card.getTextSep)
      (build_stats card.getTextSep) c u)
    (doc.selectDesc invCardPred) []
  simpa using this

theorem parse_posts_eq (doc : Node) (u : PyStr) (c : Option PyStr) :
    parse_posts_page doc u c = ((uniqPosts doc).map (postBlock c u)).flatten := by
  unfold parse_posts_page
  have := foldl_append_eq (postBlock c u) (uniqPosts doc) []
  simpa using this

theorem postBlock_eq (c : Option PyStr) (u : PyStr) (post : Node) :
    postBlock c u post =
      if (post.getTextSep).isEmpty then []
      else
        baseRecord ((bodyElemOf post).getTextSep) (postLikesOf post)
          (postTimeOf post) c u ::
        ((post.selectDesc (classHas "comment")).map
          (commentRecOf ((bodyElemOf post).getTextSep) (postTimeOf post) c u)).flatten := by
  unfold postBlock
  by_cases h : (post.getTextSep).isEmpty
  · rw [if_pos h, if_pos h]
  · rw [if_neg h, if_neg h]
    have := foldl_append_eq
      (commentRecOf ((bodyElemOf post).getTextSep) (postTimeOf post) c u)
      (post.selectDesc (classHas "comment")) []
    simp [this]

theorem commentRecOf_eq (body : PyStr) (ts : Option PyStr) (c : Option PyStr)
    (u : PyStr) (cn : Node) :
    commentRecOf body ts c u cn =
      if (cn.getTextSep).isEmpty || cn.getTextSep == body then []
      else
        [commentRecord body cn.getTextSep
          (match cn.findDesc likePred with
           | some e => parse_likes e.getTextRaw
           | none => none)
          (match cn.findDesc (tagIs "time") with
           | some e => parse_timestamp e
           | none => ts) c u] := rfl

theorem invNameOf_ne_nil (card : Node) (h : ¬card.getTextSep = []) :
    invNameOf card card.getTextSep ≠ [] := by
  unfold invNameOf
  cases hn : (invNameElem card).map Node.getTextStrip with
  | none =>
    simp only [truthyOpt, Bool.false_eq_true, if_false]
    cases ht : card.getTextSep with
    | nil => exact absurd ht h
    | cons c0 r =>
      exact crudeName_ne_nil (getTextSep_head card ht) r
  | some s =>
    by_cases hs : s.isEmpty
    · simp only [truthyOpt, hs, Bool.not_true, Bool.false_eq_true, if_false]
      cases ht : card.getTextSep with
      | nil => exact absurd ht h
      | cons c0 r =>
        exact crudeName_ne_nil (getTextSep_head card ht) r
    · simp only [truthyOpt, Bool.eq_false_iff.mpr hs, Bool.not_false, if_true,
        Option.getD_some]
      simpa [List.isEmpty_iff] using hs

theorem isSome_false_eq_none {α : Type} {o : Option α}
    (h : o.isSome = false) : o = none := by
  cases o with
  | none => rfl
  | some v => simp at h

theorem ret12At_none_of_no_marker (l : PyStr) (h : marker12At l = false) :
    ret12At l = none := by
  unfold marker12At at h
  rw [Bool.or_eq_false_iff] at h
  rw [Bool.or_eq_false_iff] at h
  obtain ⟨⟨hA, hB⟩, hC⟩ := h
  have h1 := isSome_false_eq_none hA
  have h2 := isSome_false_eq_none hB
  have h3 := isSome_false_eq_none hC
  unfold ret12At
  rw [h1, h2, h3]
  rfl

theorem tickerOf_falsy_iff (doc : Node) :
    truthyOpt (tickerOf doc) = false ↔ tickerOf doc = none := by
  cases ht : tickerOf doc with
  | none => simp [truthyOpt]
  | some r =>
    have hr : r ≠ [] := guess_ticker_some_ne_nil ht
    simp [truthyOpt, List.isEmpty_iff, hr]

theorem h1Assign_isEmpty_false {doc : Node} {t : PyStr}
    (h : h1Assign doc = some t) : t.isEmpty = false := by
  unfold h1Assign at h
  cases hf : doc.findDesc (tagIs "h1") with
  | none =>
    simp only [hf] at h
    exact Option.noConfusion h
  | some hd =>
    simp only [hf] at h
    by_cases he : hd.getTextStrip.isEmpty
    · rw [if_pos he] at h
      exact Option.noConfusion h
    · rw [if_neg he] at h
      injection h with h2
      subst h2
      exact Bool.eq_false_iff.mpr he

theorem stockName_cases (doc : Node) :
    (specDerivedName doc = none ∧ truthyOpt (stockNameOf doc) = false) ∨
    (∃ nm, specDerivedName doc = some nm ∧ stockNameOf doc = some nm ∧
      nm.isEmpty = false) := by
  unfold specDerivedName stockNameOf nonEmptyOpt
  cases hog : ogAssign doc with
  | some s =>
    by_cases hs : s.isEmpty
    · simp only [hs, if_true, Option.none_orElse, truthyOpt, Bool.not_true,
        Bool.false_eq_true, if_false]
      cases hh : h1Assign doc with
      | some t =>
        have htne := h1Assign_isEmpty_false hh
        right
        refine ⟨t, by simp, ?_, htne⟩
        simp [truthyOpt, htne]
      | none =>
        cases htt : titleAssign doc with
        | some t2 =>
          by_cases ht2 : t2.isEmpty
          · left
            constructor
            · simp [ht2]
            · simp [truthyOpt, hs, ht2]
          · right
            refine ⟨t2, by simp [ht2], ?_, Bool.eq_false_iff.mpr ht2⟩
            simp [truthyOpt, hs]
        | none =>
          left
          constructor
          · simp
          · simp [truthyOpt, hs]
    · right
      have hs' := Bool.eq_false_iff.mpr hs
      refine ⟨s, by simp [hs'], ?_, hs'⟩
      simp [truthyOpt, hs']
  | none =>
    simp only [Option.none_orElse, truthyOpt, Bool.not_true,
      Bool.false_eq_true, if_false]
    cases hh : h1Assign doc with
    | some t =>
      have htne := h1Assign_isEmpty_false hh
      right
      refine ⟨t, by simp, ?_, htne⟩
      simp [truthyOpt, htne]
    | none =>
      cases htt : titleAssign doc with
      | some t2 =>
        by_cases ht2 : t2.isEmpty
        · left
          constructor
          · simp [ht2]
          · simp [truthyOpt, ht2]
        · right
          refine ⟨t2, by simp [ht2], ?_, Bool.eq_false_iff.mpr ht2⟩
          simp [truthyOpt]
      | none =>
        left
        constructor
        · simp
        · simp [truthyOpt]

/-!  ## Claims  -/

/-- Claim C5: for every input text, `build_stats` returns null exactly
when both heuristics return null, and otherwise a mapping holding exactly
the keys (`return_12m` first, then `risk_score`) whose parser returned
non-null; it never returns an empty mapping. -/
theorem claim_C5 (t : PyStr) :
    build_stats t =
      (match parse_return_12m t, parse_risk_score t with
       | none, none => none
       | some r, none => some [("return_12m", SVal.f r)]
       | none, some k => some [("risk_score", SVal.i k)]
       | some r, some k =>
         some [("return_12m", SVal.f r), ("risk_score", SVal.i k)]) := by
  unfold build_stats
  cases parse_return_12m t <;> cases parse_risk_score t <;> simp

/-- Claim C7: `parse_return_12m` yields the signed decimal after a
12-month marker (the match structure is `ret12At`, the regex's
deterministic reading): `"Return (12M) 24.6%"` gives `24.6`
(`mkDec 246 1`), `"12m: -3.5%"` gives `-3.5` (`mkDec (-35) 1`), and any
text without a 12-month marker token gives null. -/
theorem claim_C7 :
    (∀ t, hasMarker12 t = false → parse_return_12m t = none) ∧
    parse_return_12m (strL "Return (12M) 24.6%") = some (mkDec 246 1) ∧
    parse_return_12m (strL "12m: -3.5%") = some (mkDec (-35) 1) := by
  refine ⟨?_, by decide, by decide⟩
  intro t ht
  unfold parse_return_12m
  by_cases h0 : t.isEmpty
  · rw [if_pos h0]
  · rw [if_neg h0]
    apply searchPos_none_of_test ret12At marker12At ret12At_none_of_no_marker
    exact ht

/-- Witness for claim C7 at a concrete marker-free text. -/
theorem claim_C7_witness :
    hasMarker12 (strL "no marker here") = false ∧
    parse_return_12m (strL "no marker here") = none :=
  ⟨by decide, claim_C7.1 (strL "no marker here") (by decide)⟩

/-- Claim C8: `parse_likes` returns the integer of the first contiguous
digit run (after any non-digit lead-in), so it is always null or a
natural number; `"153 likes"` gives 153, `"♥ 42"` gives 42, and text
without digits gives null. -/
theorem claim_C8 :
    (∀ t, parse_likes t =
      if specDigitRun t = [] then none
      else some (digitsToNat (specDigitRun t))) ∧
    parse_likes (strL "153 likes") = some 153 ∧
    parse_likes (strL "♥ 42") = some 42 ∧
    parse_likes (strL "no count") = none := by
  refine ⟨?_, by decide, by decide, by decide⟩
  intro t
  simp only [parse_likes]
  by_cases hs : (pyStripL t).isEmpty
  · have ht : specDigitRun t = [] :=
      specDigitRun_nil_of_strip_nil t (by simpa [List.isEmpty_iff] using hs)
    rw [if_pos hs, if_pos ht]
  · rw [if_neg hs]
    rw [show ((pyStripL t).dropWhile (fun c => !c.isDigit)).takeWhile
        Char.isDigit = specDigitRun t from specDigitRun_pyStripL t]
    by_cases hrun : specDigitRun t = []
    · rw [if_pos hrun]
      simp [hrun]
    · rw [if_neg hrun]
      simp [List.isEmpty_iff, hrun]

/-- Claim C4: a nested comment node produces a comment record exactly
when its extracted text is non-empty and differs from the post body
(`commentRecOf` in equation form), and the concrete fragment with one
duplicate and one distinct comment yields exactly two records: the post
record and the distinct comment record sharing its `post_content`. -/
theorem claim_C4 :
    (∀ (body : PyStr) (ts cat : Option PyStr) (u : PyStr) (cn : Node),
      commentRecOf body ts cat u cn =
        if (cn.getTextSep).isEmpty || cn.getTextSep == body then []
        else
          [commentRecord body cn.getTextSep
            (match cn.findDesc likePred with
             | some e => parse_likes e.getTextRaw
             | none => none)
            (match cn.findDesc (tagIs "time") with
             | some e => parse_timestamp e
             | none => ts) cat u]) ∧
    parse_posts_page dupCommentDoc (strL "u") none =
      [baseRecord (strL "hello") none none none (strL "u"),
       commentRecord (strL "hello") (strL "world") none none none (strL "u")] :=
  ⟨fun body ts cat u cn => commentRecOf_eq body ts cat u cn, by decide⟩

/-- Claim C10: the post extractor's output is the per-post blocks in
first-seen selector order after identity deduplication (`uniqPosts`),
each block being the post's own record followed by its surviving comment
records in document order. -/
theorem claim_C10 (doc : Node) (u : PyStr) (c : Option PyStr) :
    parse_posts_page doc u c = ((uniqPosts doc).map (postBlock c u)).flatten ∧
    ∀ post : Node, postBlock c u post =
      if (post.getTextSep).isEmpty then []
      else
        baseRecord ((bodyElemOf post).getTextSep) (postLikesOf post)
          (postTimeOf post) c u ::
        ((post.selectDesc (classHas "comment")).map
          (commentRecOf ((bodyElemOf post).getTextSep) (postTimeOf post)
            c u)).flatten :=
  ⟨parse_posts_eq doc u c, fun post => postBlock_eq c u post⟩

/-- Claim C3: `parse_stock_page` returns the empty list exactly when both
the spec's derived stock name (first non-empty of Open-Graph title, first
`h1`, document title) and the ticker guess are null, and otherwise
exactly one record; the page with Open-Graph title "TSLA (Tesla, Inc.)"
yields ticker "TSLA" and exactly one record, and the page with no title,
heading or document title yields the empty list.  The ticker guess
(`guess_ticker_from_title`) is by definition the first maximal
word-character run of one to five uppercase letters in the name's prefix
before the first parenthesis, pipe, hyphen or en-dash. -/
theorem claim_C3 (doc : Node) (u : PyStr) (c : Option PyStr) :
    (parse_stock_page doc u c = [] ↔
      specDerivedName doc = none ∧ tickerOf doc = none) ∧
    (specDerivedName doc = none ∨
      ∃ nm, specDerivedName doc = some nm ∧
        parse_stock_page doc u c =
          [stockRecord (some nm) (tickerOf doc) (stockCatOf doc c) u]) ∧
    parse_stock_page tslaDoc u c =
      [stockRecord (some (strL "TSLA (Tesla, Inc.)")) (some (strL "TSLA"))
        (stockCatOf tslaDoc c) u] ∧
    parse_stock_page bareDoc u c = [] := by
  have hticker_of_falsy : truthyOpt (stockNameOf doc) = false →
      tickerOf doc = none := by
    intro hfalse
    unfold tickerOf
    cases hsn : stockNameOf doc with
    | none => rfl
    | some s =>
      rw [hsn] at hfalse
      have hs : s = [] := by
        simpa [truthyOpt, List.isEmpty_iff] using hfalse
      subst hs
      rfl
  refine ⟨?_, ?_, ?_, ?_⟩
  · rcases stockName_cases doc with ⟨hspec, hfalse⟩ | ⟨nm, hspec, hname, hne⟩
    · have ht := hticker_of_falsy hfalse
      simp [parse_stock_page, hfalse, hspec, ht,
        show truthyOpt none = false from rfl]
    · simp [parse_stock_page, hname, truthyOpt, hne, hspec]
  · rcases stockName_cases doc with ⟨hspec, hfalse⟩ | ⟨nm, hspec, hname, hne⟩
    · exact Or.inl hspec
    · right
      refine ⟨nm, hspec, ?_⟩
      simp [parse_stock_page, hname, truthyOpt, hne]
  · have hname : stockNameOf tslaDoc = some (strL "TSLA (Tesla, Inc.)") := by
      decide
    have hticker : tickerOf tslaDoc = some (strL "TSLA") := by decide
    simp [parse_stock_page, hname, hticker, truthyOpt,
      show (strL "TSLA (Tesla, Inc.)").isEmpty = false from rfl]
  · have hname : stockNameOf bareDoc = none := by decide
    have hticker : tickerOf bareDoc = none := by decide
    simp only [parse_stock_page, hname, hticker, truthyOpt, Bool.not_false,
      Bool.and_self, if_true]

/-- Claim C6: the investor extractor emits exactly one record per
selected card whose visible text is non-empty (in document order), never
emits for a card with empty text, and every emitted record's
`investor_name` is a non-null, non-empty string: the crude fallback
always yields something from non-empty text. -/
theorem claim_C6 (doc : Node) (u : PyStr) (c : Option PyStr) :
    parse_investor_page doc u c =
      ((doc.selectDesc invCardPred).filter
        (fun card => !(card.getTextSep).isEmpty)).map
        (fun card => invRecord (invNameOf card card.getTextSep)
          (build_stats card.getTextSep) c u) ∧
    ∀ r ∈ parse_investor_page doc u c,
      ∃ nm, dlookup "investor_name" r = some (Value.s nm) ∧ nm ≠ [] := by
  refine ⟨parse_investor_eq doc u c, ?_⟩
  intro r hr
  rw [parse_investor_eq] at hr
  rw [List.mem_map] at hr
  obtain ⟨card, hcard, rfl⟩ := hr
  have hfil := List.mem_filter.mp hcard
  have htne : ¬card.getTextSep = [] := by
    simpa [List.isEmpty_iff] using hfil.2
  exact ⟨invNameOf card card.getTextSep, rfl, invNameOf_ne_nil card htne⟩

/-- Witness for claim C6 at a concrete page with one investor card. -/
theorem claim_C6_witness :
    invRecord (strL "Alice") (some [("risk_score", SVal.i 7)]) none (strL "u")
      ∈ parse_investor_page invDoc (strL "u") none ∧
    ∃ nm, dlookup "investor_name"
        (invRecord (strL "Alice") (some [("risk_score", SVal.i 7)]) none
          (strL "u")) = some (Value.s nm) ∧ nm ≠ [] :=
  ⟨by decide, (claim_C6 invDoc (strL "u") none).2 _ (by decide)⟩

/-- Claim C1: every record emitted by each of the three extractors is a
mapping over exactly the ten field names in `FIELD_NAMES` order, with the
fields that extractor does not populate bound to null (never absent), and
`source_url` always the non-null string passed in. -/
theorem claim_C1 (doc : Node) (u : PyStr) (c : Option PyStr) (r : Dict) :
    (r ∈ parse_stock_page doc u c →
      r.map Prod.fst = FIELD_NAMES ∧
      dlookup "investor_name" r = some Value.null ∧
      dlookup "investor_stats" r = some Value.null ∧
      dlookup "post_content" r = some Value.null ∧
      dlookup "comment_text" r = some Value.null ∧
      dlookup "likes_count" r = some Value.null ∧
      dlookup "post_date" r = some Value.null ∧
      dlookup "source_url" r = some (Value.s u)) ∧
    (r ∈ parse_investor_page doc u c →
      r.map Prod.fst = FIELD_NAMES ∧
      dlookup "stock_name" r = some Value.null ∧
      dlookup "ticker" r = some Value.null ∧
      dlookup "post_content" r = some Value.null ∧
      dlookup "comment_text" r = some Value.null ∧
      dlookup "likes_count" r = some Value.null ∧
      dlookup "post_date" r = some Value.null ∧
      dlookup "source_url" r = some (Value.s u)) ∧
    (r ∈ parse_posts_page doc u c →
      r.map Prod.fst = FIELD_NAMES ∧
      dlookup "stock_name" r = some Value.null ∧
      dlookup "ticker" r = some Value.null ∧
      dlookup "investor_name" r = some Value.null ∧
      dlookup "investor_stats" r = some Value.null ∧
      dlookup "source_url" r = some (Value.s u)) := by
  refine ⟨?_, ?_, ?_⟩
  · intro hr
    simp only [parse_stock_page] at hr
    by_cases hcond :
        (!truthyOpt (stockNameOf doc) && !truthyOpt (tickerOf doc)) = true
    · rw [if_pos hcond] at hr
      simp at hr
    · rw [if_neg hcond] at hr
      rcases List.mem_singleton.mp hr with rfl
      exact ⟨rfl, rfl, rfl, rfl, rfl, rfl, rfl, rfl⟩
  · intro hr
    rw [parse_investor_eq] at hr
    rw [List.mem_map] at hr
    obtain ⟨card, _, rfl⟩ := hr
    exact ⟨rfl, rfl, rfl, rfl, rfl, rfl, rfl, rfl⟩
  · intro hr
    rw [parse_posts_eq] at hr
    rw [List.mem_flatten] at hr
    obtain ⟨blk, hblk, hrb⟩ := hr
    rw [List.mem_map] at hblk
    obtain ⟨post, _, rfl⟩ := hblk
    rw [postBlock_eq] at hrb
    by_cases hp : (post.getTextSep).isEmpty
    · rw [if_pos hp] at hrb
      simp at hrb
    · rw [if_neg hp] at hrb
      rcases List.mem_cons.mp hrb with rfl | hrc
      · exact ⟨rfl, rfl, rfl, rfl, rfl, rfl⟩
      · rw [List.mem_flatten] at hrc
        obtain ⟨cl, hcl, hrcl⟩ := hrc
        rw [List.mem_map] at hcl
        obtain ⟨cn, _, rfl⟩ := hcl
        rw [commentRecOf_eq] at hrcl
        by_cases hcn : ((cn.getTextSep).isEmpty ||
            cn.getTextSep == (bodyElemOf post).getTextSep) = true
        · rw [if_pos hcn] at hrcl
          simp at hrcl
        · rw [if_neg hcn] at hrcl
          rcases List.mem_singleton.mp hrcl with rfl
          exact ⟨rfl, rfl, rfl, rfl, rfl, rfl⟩

/-- Witness for claim C1: one emitted record per extractor on concrete
pages, with the theorem giving the non-null `source_url` field. -/
theorem claim_C1_witness :
    (stockRecord (some (strL "TSLA (Tesla, Inc.)")) (some (strL "TSLA")) none
        (strL "u") ∈ parse_stock_page tslaDoc (strL "u") none ∧
      dlookup "source_url"
        (stockRecord (some (strL "TSLA (Tesla, Inc.)")) (some (strL "TSLA"))
          none (strL "u")) = some (Value.s (strL "u"))) ∧
    (invRecord (strL "Alice") (some [("risk_score", SVal.i 7)]) none (strL "u")
        ∈ parse_investor_page invDoc (strL "u") none ∧
      dlookup "source_url"
        (invRecord (strL "Alice") (some [("risk_score", SVal.i 7)]) none
          (strL "u")) = some (Value.s (strL "u"))) ∧
    (baseRecord (strL "hello") none none none (strL "u")
        ∈ parse_posts_page dupCommentDoc (strL "u") none ∧
      dlookup "source_url" (baseRecord (strL "hello") none none none
        (strL "u")) = some (Value.s (strL "u"))) := by
  refine ⟨⟨by decide, ?_⟩, ⟨by decide, ?_⟩, ⟨by decide, ?_⟩⟩
  · exact ((claim_C1 tslaDoc (strL "u") none _).1 (by decide)).2.2.2.2.2.2.2
  · exact ((claim_C1 invDoc (strL "u") none _).2.1 (by decide)).2.2.2.2.2.2.2
  · exact ((claim_C1 dupCommentDoc (strL "u") none _).2.2 (by decide)).2.2.2.2.2

/-- Claim C2 (amended): for every element, when the datetime attribute is
present with truthy stripped content and is accepted by the ISO-8601
validation after replacing `Z`, `_parse_timestamp` returns the attribute
value verbatim (`dtAttrHit` characterizes exactly that condition);
otherwise it strictly parses the visible text against the three formats
in order and suffixes EVERY successful text parse — including results
that carry an explicit timezone offset — with a literal `Z`, normalizing
date-only matches to midnight; it returns null when the attribute path
fails and no format matches.  (The claim as stated, which suffixes only
date-only and offset-less results, is refuted by the counterexample
below.) -/
theorem claim_C2 (tg : String) (ats : List (String × PyStr)) (cs : List Node) :
    (∀ v, dtAttrHit (Node.elem tg ats cs) = some v ↔
      ((Node.elem tg ats cs).getAttr "datetime" = some v ∧
        (pyStripL v).isEmpty = false ∧ fromisoOk (replZ v) = true)) ∧
    (∀ v, dtAttrHit (Node.elem tg ats cs) = some v →
      parse_timestamp (Node.elem tg ats cs) = some v) ∧
    (dtAttrHit (Node.elem tg ats cs) = none →
      ((Node.elem tg ats cs).getTextStrip = [] →
        parse_timestamp (Node.elem tg ats cs) = none) ∧
      (∀ dt, strptimeOffs (Node.elem tg ats cs).getTextStrip = some dt →
        parse_timestamp (Node.elem tg ats cs) = some (isoFmt dt ++ ['Z'])) ∧
      (strptimeOffs (Node.elem tg ats cs).getTextStrip = none →
        ∀ dt, strptimeNaive (Node.elem tg ats cs).getTextStrip = some dt →
          parse_timestamp (Node.elem tg ats cs) = some (isoFmt dt ++ ['Z'])) ∧
      (strptimeOffs (Node.elem tg ats cs).getTextStrip = none →
        strptimeNaive (Node.elem tg ats cs).getTextStrip = none →
        ∀ dt, strptimeDate (Node.elem tg ats cs).getTextStrip = some dt →
          parse_timestamp (Node.elem tg ats cs) = some (isoFmt dt ++ ['Z'])) ∧
      (strptimeOffs (Node.elem tg ats cs).getTextStrip = none →
        strptimeNaive (Node.elem tg ats cs).getTextStrip = none →
        strptimeDate (Node.elem tg ats cs).getTextStrip = none →
        parse_timestamp (Node.elem tg ats cs) = none)) := by
  refine ⟨?_, ?_, ?_⟩
  · intro v
    cases hga : (Node.elem tg ats cs).getAttr "datetime" with
    | none => simp [dtAttrHit, hga]
    | some w =>
      simp only [dtAttrHit, hga]
      by_cases hw : (!(pyStripL w).isEmpty && fromisoOk (replZ w)) = true
      · rw [if_pos hw]
        rw [Bool.and_eq_true] at hw
        constructor
        · intro h
          injection h with h2
          subst h2
          exact ⟨rfl, by simpa using hw.1, hw.2⟩
        · intro ⟨h1, _, _⟩
          injection h1 with h2
          subst h2
          rfl
      · rw [if_neg hw]
        constructor
        · intro h; exact Option.noConfusion h
        · intro ⟨h1, h2, h3⟩
          injection h1 with h4
          subst h4
          exact absurd (by simp [h2, h3] : (!(pyStripL w).isEmpty &&
            fromisoOk (replZ w)) = true) hw
  · intro v h
    simp only [parse_timestamp, Bool.not_true, Bool.false_eq_true, if_false, h]
  · intro hmiss
    refine ⟨?_, ?_, ?_, ?_, ?_⟩
    · intro ht
      simp [parse_timestamp, hmiss, ht]
    · intro dt h1
      have htne : ¬(Node.elem tg ats cs).getTextStrip = [] := by
        intro he; rw [he] at h1; exact Option.noConfusion h1
      simp [parse_timestamp, hmiss, h1, htne]
    · intro h1 dt h2
      have htne : ¬(Node.elem tg ats cs).getTextStrip = [] := by
        intro he; rw [he] at h2; exact Option.noConfusion h2
      simp [parse_timestamp, hmiss, h1, h2, htne]
    · intro h1 h2 dt h3
      have htne : ¬(Node.elem tg ats cs).getTextStrip = [] := by
        intro he; rw [he] at h3; exact Option.noConfusion h3
      simp [parse_timestamp, hmiss, h1, h2, h3, htne]
    · intro h1 h2 h3
      by_cases htne : (Node.elem tg ats cs).getTextStrip = []
      · simp [parse_timestamp, hmiss, htne]
      · simp [parse_timestamp, hmiss, h1, h2, h3, htne]

/-- Witness for claim C2: the attribute round-trip and the date-only text
normalization at concrete elements. -/
theorem claim_C2_witness :
    dtAttrHit dtAttrEl = some (strL "2025-03-22T14:30:00Z") ∧
    parse_timestamp dtAttrEl = some (strL "2025-03-22T14:30:00Z") ∧
    dtAttrHit dateTextEl = none ∧
    parse_timestamp dateTextEl = some (strL "2025-03-22T00:00:00Z") := by
  refine ⟨by decide, ?_, by decide, ?_⟩
  · exact (claim_C2 "time" [("datetime", strL "2025-03-22T14:30:00Z")]
      [Node.text (strL "x")]).2.1 _ (by decide)
  · have h := ((claim_C2 "span" []
      [Node.text (strL "2025-03-22")]).2.2 (by decide)).2.2.2.1
      (by decide) (by decide) ⟨2025, 3, 22, 0, 0, 0, none⟩ (by decide)
    exact h.trans (by decide)

/-- Counterexample to claim C2 as stated: visible text that parses under
the with-offset format is still suffixed with `Z` (the code suffixes all
three text formats), whereas the claim reserves the suffix exactly for
date-only and offset-less results and so predicts
"2025-03-22T14:30:00+00:00" here. -/
theorem claim_C2_counterexample :
    parse_timestamp offsetTextEl = some (strL "2025-03-22T14:30:00+00:00Z") ∧
    strL "2025-03-22T14:30:00+00:00Z" ≠ strL "2025-03-22T14:30:00+00:00" := by
  exact ⟨by decide, by decide⟩

theorem dlookup_normalize (part : Dict) (category : Option PyStr)
    (source_url : PyStr) (f : String) (h1 : ¬f = "category")
    (h2 : ¬f = "source_url") :
    dlookup f (normalize_record part category source_url) =
      (match dlookup f (FIELD_NAMES.map fun fn => (fn, Value.null)) with
       | some v0 => some ((dlookup f part).getD v0)
       | none => dlookup f part) := by
  simp only [normalize_record]
  rw [dlookup_dictSet_other _ _ _ _ (fun hh => h2 hh.symm)]
  rw [dlookup_dictSet_other _ _ _ _ (fun hh => h1 hh.symm)]
  exact dlookup_dictUpd _ part f

theorem dlookup_init_of_mem (f : String) (hf : f ∈ FIELD_NAMES) :
    dlookup f (FIELD_NAMES.map fun fn => (fn, Value.null)) =
      some Value.null := by
  fin_cases hf <;> rfl

theorem dlookup_normalize_src (part : Dict) (category : Option PyStr)
    (source_url : PyStr) :
    dlookup "source_url" (normalize_record part category source_url) =
      some (match dlookup "source_url" part with
        | some v => if pyTruthy v then v else Value.s source_url
        | none => Value.s source_url) := by
  simp only [normalize_record]
  rw [dlookup_dictSet_self]

theorem dlookup_normalize_cat (part : Dict) (category : Option PyStr)
    (source_url : PyStr) :
    dlookup "category" (normalize_record part category source_url) =
      some (match dlookup "category" part with
        | some v =>
          if pyTruthy v then v
          else
            (match category with
             | some c => if !c.isEmpty then Value.s c else v
             | none => v)
        | none =>
          (match category with
           | some c => if !c.isEmpty then Value.s c else Value.null
           | none => Value.null)) := by
  simp only [normalize_record]
  rw [dlookup_dictSet_other _ _ _ _ (by decide)]
  rw [dlookup_dictSet_self]
  rw [dlookup_dictUpd]
  rw [dlookup_init_of_mem "category" (by simp [FIELD_NAMES])]
  cases hpc : dlookup "category" part with
  | some v =>
    by_cases hv : pyTruthy v = true
    · simp [hv]
    · cases category with
      | none => simp [Bool.eq_false_iff.mpr hv]
      | some c =>
        by_cases hc : c.isEmpty
        · simp [Bool.eq_false_iff.mpr hv, pyTruthy, hc]
        · simp [Bool.eq_false_iff.mpr hv, pyTruthy, hc]
  | none =>
    cases category with
    | none => simp
    | some c =>
      by_cases hc : c.isEmpty
      · simp [pyTruthy, hc]
      · simp [pyTruthy, hc]

/-- Claim C9 (amended): `normalize_record` yields a mapping with all ten
field names present; every field carried by the partial other than
`category` and `source_url` keeps the partial's value and absent fields
become null; `source_url` resolves to the partial's value if truthy, else
the passed-in URL; and `category` resolves to the partial's value if
truthy, else the passed-in category if truthy, else — unlike the claim as
stated, which says null — the partial's own (falsy) category value
whenever that key is present, and null only when it is absent. -/
theorem claim_C9 (part : Dict) (category : Option PyStr)
    (source_url : PyStr) :
    (∀ f ∈ FIELD_NAMES,
      (dlookup f (normalize_record part category source_url)).isSome = true) ∧
    (∀ k v, dlookup k part = some v → ¬k = "category" → ¬k = "source_url" →
      dlookup k (normalize_record part category source_url) = some v) ∧
    (∀ f ∈ FIELD_NAMES, ¬f = "category" → ¬f = "source_url" →
      dlookup f part = none →
      dlookup f (normalize_record part category source_url) =
        some Value.null) ∧
    dlookup "category" (normalize_record part category source_url) =
      some (match dlookup "category" part with
        | some v =>
          if pyTruthy v then v
          else
            (match category with
             | some c => if !c.isEmpty then Value.s c else v
             | none => v)
        | none =>
          (match category with
           | some c => if !c.isEmpty then Value.s c else Value.null
           | none => Value.null)) ∧
    dlookup "source_url" (normalize_record part category source_url) =
      some (match dlookup "source_url" part with
        | some v => if pyTruthy v then v else Value.s source_url
        | none => Value.s source_url) := by
  refine ⟨?_, ?_, ?_, dlookup_normalize_cat part category source_url,
    dlookup_normalize_src part category source_url⟩
  · intro f hf
    by_cases hc : f = "category"
    · subst hc
      rw [dlookup_normalize_cat]
      rfl
    · by_cases hs : f = "source_url"
      · subst hs
        rw [dlookup_normalize_src]
        rfl
      · rw [dlookup_normalize part category source_url f hc hs,
          dlookup_init_of_mem f hf]
        cases dlookup f part <;> rfl
  · intro k v hpart hk1 hk2
    rw [dlookup_normalize part category source_url k hk1 hk2]
    cases hinit : dlookup k (FIELD_NAMES.map fun fn => (fn, Value.null)) with
    | some v0 => simp [hpart]
    | none => exact hpart
  · intro f hf h1 h2 hpart
    rw [dlookup_normalize part category source_url f h1 h2,
      dlookup_init_of_mem f hf, hpart]
    rfl

/-- Witness for claim C9 at a concrete partial record. -/
theorem claim_C9_witness :
    dlookup "post_content" [("post_content", Value.s (strL "x"))] =
      some (Value.s (strL "x")) ∧
    dlookup "post_content"
      (normalize_record [("post_content", Value.s (strL "x"))]
        (some (strL "c")) (strL "u")) = some (Value.s (strL "x")) :=
  ⟨by decide,
    (claim_C9 [("post_content", Value.s (strL "x"))] (some (strL "c"))
      (strL "u")).2.1 "post_content" (Value.s (strL "x")) (by decide)
      (by decide) (by decide)⟩

/-- Counterexample to claim C9 as stated: with a present-but-falsy
partial category (`""`) and no passed-in category, the code returns the
empty string, not null as the claim predicts. -/
theorem claim_C9_counterexample :
    dlookup "category"
      (normalize_record [("category", Value.s [])] none (strL "u")) =
      some (Value.s []) ∧
    ¬dlookup "category"
      (normalize_record [("category", Value.s [])] none (strL "u")) =
      some Value.null := ⟨by decide, by decide⟩
